import Mathlib

/-!
Verification of the televideditor worker (src/televideditor.py).

The Python source is shallowly embedded. Pure computations become Lean
functions over ℕ/ℤ/ℚ (Python float arithmetic is modelled as exact
rational arithmetic, and Python `int()` as truncation toward zero).
Calls to external collaborators (Telegram download, PIL, ffprobe,
ffmpeg, the result worker, the Redis queue, the filesystem) are modelled
by explicit oracle records whose fields describe each collaborator's
reply for the run under consideration, and exception-raising code
returns `Except`.
-/

namespace Televideditor

/-- Python `int()` applied to a real value: truncation toward zero. -/
def pyInt (q : ℚ) : ℤ := if 0 ≤ q then ⌊q⌋ else ⌈q⌉

/-- `COMP_WIDTH = 1080` (source line 31). -/
def COMP_WIDTH : ℕ := 1080

/-- `COMP_HEIGHT = 1920` (source line 32). -/
def COMP_HEIGHT : ℕ := 1920

/-- `MEDIA_Y_OFFSET = 0` (source line 39). -/
def MEDIA_Y_OFFSET : ℚ := 0

/-- `IMAGE_DURATION = 12` (source line 36). -/
def IMAGE_DURATION : ℚ := 12

/-- `MEDIA_FADE_DURATION = 10` (source line 37). -/
def MEDIA_FADE_DURATION : ℕ := 10

/-- `CAPTION_FADE_DURATION = 4` (source line 38). -/
def CAPTION_FADE_DURATION : ℕ := 4

/-- `SHADOW_BLUR_RADIUS = 20` (source line 49). -/
def SHADOW_BLUR_RADIUS : ℕ := 20

/-- `CAPTION_TOP_PADDING_LINES = 0` (source line 42). -/
def CAPTION_TOP_PADDING_LINES : ℕ := 0

/-- `DOWNLOAD_PATH = "downloads"` (source line 52). -/
def DOWNLOAD_PATH : String := "downloads"

/-- `OUTPUT_PATH = "outputs"` (source line 53). -/
def OUTPUT_PATH : String := "outputs"

/-! Composition geometry, from `process_video_job` lines 315-317. -/

/-- `scale_ratio = COMP_WIDTH / media_w` (source line 315; float division
modelled over ℚ). -/
def scale_ratio_val (media_w : ℕ) : ℚ := (COMP_WIDTH : ℚ) / (media_w : ℚ)

/-- `scaled_media_h = int(media_h * scale_ratio)` (source line 316). -/
def scaled_media_h (media_w media_h : ℕ) : ℤ :=
  pyInt ((media_h : ℚ) * scale_ratio_val media_w)

/-- `media_y_pos = int((COMP_HEIGHT / 2 - scaled_media_h / 2) + MEDIA_Y_OFFSET)`
(source line 317). -/
def media_y_pos (media_w media_h : ℕ) : ℤ :=
  pyInt ((COMP_HEIGHT : ℚ) / 2 - (scaled_media_h media_w media_h : ℚ) / 2 + MEDIA_Y_OFFSET)

/-- The media scaling filter string built at source line 341:
`f"[1:v]scale=COMP_WIDTH:-1,setpts=PTS-STARTPTS" + media_fade_filter + "[scaled_media]"`,
where the fade part is appended when `job_data['apply_fade']` is set (lines 338-341). -/
def scaled_media_filter (apply_fade : Bool) : String :=
  "[1:v]scale=" ++ toString COMP_WIDTH ++ ":-1,setpts=PTS-STARTPTS" ++
    (if apply_fade then ",fade=t=in:st=0:d=" ++ toString MEDIA_FADE_DURATION else "") ++
    "[scaled_media]"

/-! Frame extraction timing, from `extract_frame_from_video` (line 282)
and `process_video_job` (lines 364-387). -/

/-- `midpoint = duration / 2` inside `extract_frame_from_video` (source line 282). -/
def extract_frame_midpoint (duration : ℚ) : ℚ := duration / 2

/-- `trimmed_duration = final_duration - 0.5` (source line 386). -/
def trimmed_duration_calc (final_duration : ℚ) : ℚ := final_duration - 1/2

/-- The output-seek arguments inserted into the encode command at source
line 367: `'-ss', '0.4'`. -/
def output_seek_args : List String := ["-ss", "0.4"]

/-- Numeric value of the `-ss 0.4` output seek (source line 367). -/
def output_seek_trim : ℚ := 2/5

/-- The time at which the still frame is seeked in the composed clip:
`extract_frame_from_video(output_filepath, trimmed_duration, job_id)` computes
`trimmed_duration / 2` (source lines 282, 386-387). -/
def frame_seek_time (final_duration : ℚ) : ℚ :=
  extract_frame_midpoint (trimmed_duration_calc final_duration)

/-! Caption canvas allocation, from `create_caption_image` lines 250-254 and 267. -/

/-- `img_padding = SHADOW_BLUR_RADIUS * 4` (source line 250). -/
def img_padding : ℕ := SHADOW_BLUR_RADIUS * 4

/-- `(img_width, img_height) = (text_width + img_padding, text_height + img_padding)`
(source lines 251-252). -/
def caption_img_size (text_width text_height : ℕ) : ℕ × ℕ :=
  (text_width + img_padding, text_height + img_padding)

/-- `text_pos = (img_padding / 2, img_padding / 2)` (source line 267). -/
def caption_text_pos : ℕ × ℕ := (img_padding / 2, img_padding / 2)

/-! The media prober, `get_media_dimensions` (source lines 218-230). -/

/-- The two media kinds the job payload can carry. -/
inductive MediaType
  | image
  | video
  deriving DecidableEq

/-- Oracle for the prober's two collaborators: `Image.open(...)` (a success
yields the intrinsic pixel dimensions, a failure is an exception that
propagates out of `get_media_dimensions`), and the
`ffprobe` subprocess-plus-JSON-parse (a success yields width, height and the
parsed float duration; any exception is caught inside the function). -/
structure ProbeEnv where
  imageOpen : Except Unit (ℕ × ℕ)
  ffprobeRun : Option (ℕ × ℕ × ℚ)

/-- `get_media_dimensions(media_path, media_type)` (source lines 218-230).
For `'image'` it returns `(img.width, img.height, IMAGE_DURATION)`; an
`Image.open` failure propagates (no try/except on that branch).  For video it
returns the ffprobe triple `(width, height, float(duration))`, and on any
caught exception returns `(None, None, None)`. -/
def get_media_dimensions (env : ProbeEnv) (media_type : MediaType) :
    Except Unit (Option ℕ × Option ℕ × Option ℚ) :=
  match media_type with
  | MediaType.image =>
    match env.imageOpen with
    | Except.ok (w, h) => Except.ok (some w, some h, some IMAGE_DURATION)
    | Except.error e => Except.error e
  | MediaType.video =>
    match env.ffprobeRun with
    | some (w, h, d) => Except.ok (some w, some h, some d)
    | none => Except.ok (none, none, none)

/-- Python truthiness of the probed width/height entries: `None` and `0` are
falsy, every other int is truthy (used by `all([...])` at source line 309). -/
def truthyNat : Option ℕ → Bool
  | none => false
  | some n => if n = 0 then false else true

/-- Python truthiness of the probed duration entry: `None` and `0.0` are
falsy, every other float is truthy (used by `all([...])` at source line 309). -/
def truthyRat : Option ℚ → Bool
  | none => false
  | some q => if q = 0 then false else true

/-! The job pipeline, `process_video_job` (source lines 292-399). -/

/-- The fields of the queued job payload that steer the pipeline's control
flow. -/
structure JobData where
  job_id : String
  media_type : MediaType

/-- Oracle describing every external outcome one pipeline run can observe:
whether `download_telegram_file` returns a path (with which file extension)
or `None`; the prober's collaborators; whether `create_caption_image`
returns or raises (e.g. a missing font); the encode subprocess outcome
(`Except.error` models an uncaught `TimeoutExpired`, `Except.ok rc` a
completed run with returncode `rc`); whether `extract_frame_from_video`
returns a path or `None`; and whether `submit_result_to_worker` returns a
Bool or raises. -/
structure JobWorld where
  downloadExt : Option String
  probeEnv : ProbeEnv
  captionOk : Bool
  encodeResult : Except Unit ℤ
  frameOk : Bool
  submitResult : Except Unit Bool

/-- The pipeline stage whose failure terminated the try-block, as caught by
`except Exception` at source line 393. -/
inductive Stage
  | acquire
  | probe
  | caption
  | encode
  | extract
  | deliver
  deriving DecidableEq

/-- Observable outcome of one `process_video_job` try-block: the
`files_to_clean` list as accumulated when the `finally` block runs, how many
times delivery was attempted, and which stage (if any) raised. -/
structure JobRun where
  files_to_clean : List String
  delivery_attempts : ℕ
  failed_stage : Option Stage
  deriving DecidableEq

/-- `save_path = os.path.join(DOWNLOAD_PATH, f"job_id+file_extension")`
(source line 204). -/
def download_save_path (job_id ext : String) : String :=
  DOWNLOAD_PATH ++ "/" ++ job_id ++ ext

/-- `caption_image_path = os.path.join(OUTPUT_PATH, f"caption_job_id.png")`
(source line 274). -/
def caption_image_path (job_id : String) : String :=
  OUTPUT_PATH ++ "/caption_" ++ job_id ++ ".png"

/-- `output_filepath = os.path.join(OUTPUT_PATH, f"output_job_id.mp4")`
(source line 314). -/
def output_filepath (job_id : String) : String :=
  OUTPUT_PATH ++ "/output_" ++ job_id ++ ".mp4"

/-- `frame_path = os.path.join(OUTPUT_PATH, f"frame_job_id.jpg")`
(source line 281). -/
def frame_output_path (job_id : String) : String :=
  OUTPUT_PATH ++ "/frame_" ++ job_id ++ ".jpg"

/-- The try-block of `process_video_job` (source lines 302-395): each stage in
order, short-circuiting on the first failure (every raise is caught by the
`except Exception` clause, so the body always yields a `JobRun`).  The
`files_to_clean` list grows exactly as in the source: the downloaded media
after a successful download (line 305), the caption image after a successful
render (line 312), the encode output only after a zero returncode (line 383),
and the extracted frame after a successful extraction (line 389).  Delivery is
reached only when every prior stage succeeded (line 391); its Bool result is
ignored, while an exception from it is caught like any other. -/
def job_body (job : JobData) (w : JobWorld) : JobRun :=
  match w.downloadExt with
  | none => ⟨[], 0, some Stage.acquire⟩
  | some ext =>
    let media_path := download_save_path job.job_id ext
    match get_media_dimensions w.probeEnv job.media_type with
    | Except.error _ => ⟨[media_path], 0, some Stage.probe⟩
    | Except.ok (mw, mh, md) =>
      if truthyNat mw && truthyNat mh && truthyRat md then
        if w.captionOk then
          match w.encodeResult with
          | Except.error _ =>
            ⟨[media_path, caption_image_path job.job_id], 0, some Stage.encode⟩
          | Except.ok rc =>
            if rc = 0 then
              if w.frameOk then
                match w.submitResult with
                | Except.ok _ =>
                  ⟨[media_path, caption_image_path job.job_id,
                    output_filepath job.job_id, frame_output_path job.job_id], 1, none⟩
                | Except.error _ =>
                  ⟨[media_path, caption_image_path job.job_id,
                    output_filepath job.job_id, frame_output_path job.job_id], 1,
                    some Stage.deliver⟩
              else
                ⟨[media_path, caption_image_path job.job_id, output_filepath job.job_id],
                  0, some Stage.extract⟩
            else ⟨[media_path, caption_image_path job.job_id], 0, some Stage.encode⟩
        else ⟨[media_path], 0, some Stage.caption⟩
      else ⟨[media_path], 0, some Stage.probe⟩

/-- `os.remove(p)`: removes `p` from the filesystem, or raises `OSError`
when the deletion-failure oracle `rf` says so.  The filesystem is the
predicate of paths that currently exist. -/
def os_remove (fs rf : String → Bool) (p : String) : Except Unit (String → Bool) :=
  if rf p then Except.error () else Except.ok (fun q => if q = p then false else fs q)

/-- `cleanup_files(file_list)` (source lines 57-65): for each path, when it is
truthy and exists, attempt `os.remove`; an `OSError` is caught and logged,
leaving the file in place; a missing path is skipped without error. -/
def cleanup_files (rf : String → Bool) : (String → Bool) → List String → Except Unit (String → Bool)
  | fs, [] => Except.ok fs
  | fs, p :: rest =>
    if p ≠ "" ∧ fs p = true then
      match os_remove fs rf p with
      | Except.ok fs2 => cleanup_files rf fs2 rest
      | Except.error _ => cleanup_files rf fs rest
    else cleanup_files rf fs rest

/-- `process_video_job` including its `finally` block (source lines 397-399):
the try-block result is produced, the caught exception (if any) is logged,
and `cleanup_files(files_to_clean)` runs on every exit path.  The overall
call raises only if `cleanup_files` itself raises. -/
def process_video_job (job : JobData) (w : JobWorld) (fs rf : String → Bool) :
    Except Unit ((String → Bool) × JobRun) :=
  match cleanup_files rf fs (job_body job w).files_to_clean with
  | Except.ok fs2 => Except.ok (fs2, job_body job w)
  | Except.error e => Except.error e

/-- The claim C7 reads the probe contract as: every successful return is
either the all-`None` failure triple or a fully populated triple of positive
values, with the image duration fixed at `IMAGE_DURATION`. -/
def probe_positive_claim (env : ProbeEnv) (t : MediaType) : Prop :=
  ∀ a b c, get_media_dimensions env t = Except.ok (a, b, c) →
    (a = none ∧ b = none ∧ c = none) ∨
    ∃ w h d, a = some w ∧ b = some h ∧ c = some d ∧
      0 < w ∧ 0 < h ∧ 0 < d ∧ (t = MediaType.image → d = IMAGE_DURATION)

/-- The spec's success condition for one pipeline run: Acquire, Probe (with
truthy width/height/duration), RenderCaption, Plan&Encode (returncode 0) and
ExtractFrame all succeeded. -/
def all_stages_ok (job : JobData) (w : JobWorld) : Prop :=
  w.downloadExt.isSome = true ∧
  (∃ a b c, get_media_dimensions w.probeEnv job.media_type = Except.ok (a, b, c) ∧
    truthyNat a = true ∧ truthyNat b = true ∧ truthyRat c = true) ∧
  w.captionOk = true ∧ w.encodeResult = Except.ok 0 ∧ w.frameOk = true

/-! The worker lifecycle controller, the `__main__` block (source lines
402-434). -/

/-- The two lifecycle modes named by the spec. -/
inductive Mode
  | Draining
  | Probing
  deriving DecidableEq

/-- The effectful operations the `__main__` block can perform, in trace
order: a queue fetch (`fetch_job_from_redis`), a pipeline invocation
(`process_video_job`), the shutdown request (`stop_railway_deployment`), and
the HTTP liveness responder the spec describes.  The last constructor exists
so the spec's claimed responder can be stated; the source's main block never
performs it (no HTTP server appears anywhere in src/televideditor.py). -/
inductive MainEvent
  | fetchJob
  | runJob
  | stopDeployment
  | startHttpResponder
  deriving DecidableEq

/-- The initial polling loop (source lines 411-417): repeatedly fetch until a
job arrives or the 60-second window closes, sleeping 3 s between empty
fetches.  `f k` is the result of the `k`-th fetch; the fuel argument is the
number of loop iterations the wall clock admits.  Returns the first job found
(if any) and the total number of fetches performed. -/
def poll_first_job (f : ℕ → Option ℕ) : ℕ → ℕ → Option ℕ × ℕ
  | 0, k => (none, k)
  | fuel + 1, k =>
    match f k with
    | some j => (some j, k + 1)
    | none => poll_first_job f fuel (k + 1)

/-- The mode the run commits to (source line 419: `if first_job:`). -/
def lifecycle_mode (f : ℕ → Option ℕ) (fuel : ℕ) : Mode :=
  match (poll_first_job f fuel 0).1 with
  | some _ => Mode.Draining
  | none => Mode.Probing

/-- The drain loop (source lines 422-428): fetch and process until the queue
reports empty.  Fuel bounds the unbounded `while True`. -/
def drain_loop (f : ℕ → Option ℕ) : ℕ → ℕ → List MainEvent
  | 0, _ => []
  | fuel + 1, k =>
    match f k with
    | some _ => MainEvent.fetchJob :: MainEvent.runJob :: drain_loop f fuel (k + 1)
    | none => [MainEvent.fetchJob]

/-- The whole `__main__` trace (source lines 402-434): poll for a first job;
if one arrived, process it and drain the queue; in both cases finish with the
shutdown request. -/
def main_trace (f : ℕ → Option ℕ) (pollFuel drainFuel : ℕ) : List MainEvent :=
  match poll_first_job f pollFuel 0 with
  | (some _, k) =>
    List.replicate k MainEvent.fetchJob ++ MainEvent.runJob ::
      (drain_loop f drainFuel k ++ [MainEvent.stopDeployment])
  | (none, k) => List.replicate k MainEvent.fetchJob ++ [MainEvent.stopDeployment]

/-- A fetch sequence whose first fetch is empty and whose second yields a
job. -/
def cex_fetches : ℕ → Option ℕ := fun k => if k = 0 then none else some 1

/-- A fetch sequence that never yields a job. -/
def cex_empty : ℕ → Option ℕ := fun _ => none

/-- A probe oracle whose ffprobe run reports a parsed duration of `0.0`
(and whose image open would report 3x4 pixels). -/
def cex_probe_env : ProbeEnv := ⟨Except.ok (3, 4), some (100, 100, 0)⟩

/-! Caption word wrapping.  `create_caption_image` (source line 241) computes

  `[item for line in padded_text.split('\n')
         for item in textwrap.wrap(line, width=35, break_long_words=True) or ['']]`

`textwrap.wrap` is CPython's; the definitions below embed its algorithm for
the option combination used at this call site (width 35, and the defaults
`expand_tabs=True` with tab size 8, `replace_whitespace=True`,
`drop_whitespace=True`, `break_long_words=True`, `initial_indent` and
`subsequent_indent` empty, `max_lines=None`, `fix_sentence_endings=False`).
Strings are `List Char`.  One simplification is made in the chunking step:
CPython's `break_on_hyphens=True` word-separator regex may additionally split
a non-whitespace run after an internal hyphen; those extra split points only
add permissible break positions and do not affect the properties proved here
(the line-length bound is proved for arbitrary chunk lists). -/

/-- A nonempty character run: head character plus the rest.  Chunks produced
by the word-separator split are never empty, and representing them this way
keeps that invariant by construction. -/
abbrev Chunk := Char × List Char

/-- The characters of a chunk. -/
def chunkChars (c : Chunk) : List Char := c.1 :: c.2

/-- The length of a chunk (always positive). -/
def chunkLen (c : Chunk) : ℕ := c.2.length + 1

/-- Total number of characters held in a chunk list. -/
def chunksLen (cs : List Chunk) : ℕ := (cs.map chunkLen).sum

/-- Python's `string.whitespace` characters as used by `textwrap`
(`'\t\n\x0b\x0c\r '`). -/
def isPyWS (c : Char) : Bool :=
  c = ' ' || c = '\t' || c = '\n' || c = Char.ofNat 11 || c = Char.ofNat 12 || c = '\r'

/-- `chunk.strip() == ''`: every character of the chunk is whitespace. -/
def isWSChunk (c : Chunk) : Bool := (chunkChars c).all isPyWS

/-- Python `str.expandtabs(8)`: replace each tab by spaces up to the next
multiple-of-8 column; newline and carriage return reset the column. -/
def pyExpandtabs : ℕ → List Char → List Char
  | _, [] => []
  | col, ch :: rest =>
    if ch = '\t' then
      List.replicate (8 - col % 8) ' ' ++ pyExpandtabs (col + (8 - col % 8)) rest
    else if ch = '\n' || ch = '\r' then ch :: pyExpandtabs 0 rest
    else ch :: pyExpandtabs (col + 1) rest

/-- `TextWrapper._munge_whitespace`: expand tabs, then turn every whitespace
character into a plain space. -/
def munge_whitespace (line : List Char) : List Char :=
  (pyExpandtabs 0 line).map (fun ch => if isPyWS ch then ' ' else ch)

/-- The word-separator split: maximal runs of whitespace and of
non-whitespace characters, in order (see the module comment for the
`break_on_hyphens` simplification). -/
def split_chunks : List Char → List Chunk
  | [] => []
  | ch :: rest =>
    match split_chunks rest with
    | [] => [(ch, [])]
    | (d, ds) :: more =>
      if isPyWS ch = isPyWS d then (ch, d :: ds) :: more
      else (ch, []) :: (d, ds) :: more

/-- The inner greedy loop of `_wrap_chunks`: keep taking chunks while the
accumulated length stays within the width.  Returns the chunks taken, the
chunks remaining, and the final accumulated length. -/
def fill_line (w : ℕ) : List Chunk → ℕ → List Chunk × List Chunk × ℕ
  | [], n => ([], [], n)
  | c :: rest, n =>
    if n + chunkLen c ≤ w then
      let r := fill_line w rest (n + chunkLen c)
      (c :: r.1, r.2.1, r.2.2)
    else ([], c :: rest, n)

/-- Index of the last `'-'` in a character list, if any
(Python `str.rfind('-')` restricted to the searched region). -/
def rfindDash : List Char → Option ℕ
  | [] => none
  | c :: rest =>
    match rfindDash rest with
    | some i => some (i + 1)
    | none => if c = '-' then some 0 else none

/-- Chunks holding the given characters: none when empty, one otherwise
(`chunks[-1] = chunk[end:]` in `_handle_long_word`; under the guard
`len(chunk) > space_left` the remainder is never empty). -/
def ofChars : List Char → List Chunk
  | [] => []
  | c :: cs => [(c, cs)]

/-- `TextWrapper._handle_long_word` with `break_long_words=True` and
`break_on_hyphens=True`: break the oversized chunk at the remaining space, or
just after the last hyphen inside that space when the hyphen is preceded by a
non-hyphen character.  Returns the piece appended to the current line and the
remaining chunk. -/
def handle_long_word (w n : ℕ) (c : Chunk) : List Char × List Chunk :=
  let space_left := if w < 1 then 1 else w - n
  let s := chunkChars c
  let e :=
    if space_left < s.length then
      match rfindDash (s.take space_left) with
      | some hy =>
        if 0 < hy ∧ (s.take hy).any (fun ch => ch ≠ '-') then hy + 1 else space_left
      | none => space_left
    else space_left
  (s.take e, ofChars (s.drop e))

/-- `if self.drop_whitespace and chunks[-1].strip() == '' and lines: del
chunks[-1]` — at the start of each `_wrap_chunks` iteration the leading
whitespace chunk is dropped, but only once a line has been emitted
(`linesEmpty` is true while `lines` is still empty). -/
def drop_leading_ws (linesEmpty : Bool) (chunks : List Chunk) : List Chunk :=
  match chunks with
  | [] => []
  | c :: rest => if linesEmpty = false ∧ isWSChunk c = true then rest else chunks

/-- The `_wrap_chunks` step after the greedy fill: when chunks remain and the
next one is longer than the whole width (`len(chunks[-1]) > self.width`),
call `_handle_long_word`; `taken`/`rem`/`n` are the greedy fill's outputs. -/
def line_step_core (taken rem : List Chunk) (n : ℕ) : List (List Char) × List Chunk :=
  match rem with
  | [] => (taken.map chunkChars, [])
  | c :: rest =>
    if 35 < chunkLen c then
      let hl := handle_long_word 35 n c
      (taken.map chunkChars ++ [hl.1], hl.2 ++ rest)
    else (taken.map chunkChars, c :: rest)

/-- One `_wrap_chunks` iteration after the leading-whitespace drop: greedy
fill at width 35, then — when the next chunk is longer than the whole width —
`_handle_long_word`.  Returns the current line's pieces and the remaining
chunks. -/
def line_step (chunks1 : List Chunk) : List (List Char) × List Chunk :=
  line_step_core (fill_line 35 chunks1 0).1 (fill_line 35 chunks1 0).2.1
    (fill_line 35 chunks1 0).2.2

/-- `if self.drop_whitespace and cur_line and cur_line[-1].strip() == '':
del cur_line[-1]` — drop the trailing piece of the line when it is pure
whitespace (a single deletion). -/
def drop_trailing_ws (cur : List (List Char)) : List (List Char) :=
  match cur.getLast? with
  | some last => if last.all isPyWS then cur.dropLast else cur
  | none => cur

/-- One full `_wrap_chunks` loop iteration: maybe emit a line
(`''.join(cur_line)` when `cur_line` is nonempty) and return the remaining
chunks. -/
def take_line (linesEmpty : Bool) (chunks : List Chunk) : Option (List Char) × List Chunk :=
  let s := line_step (drop_leading_ws linesEmpty chunks)
  let cur := drop_trailing_ws s.1
  (if cur.isEmpty then none else some cur.flatten, s.2)

/-- `TextWrapper._wrap_chunks` at width 35, fuelled: iterate `take_line`
until the chunks run out.  Each iteration strictly decreases the total
character count (proved below as `take_line_chunksLen_lt`), so the fuel
`chunksLen chunks + 1` used by `wrap_chunks` is always sufficient
(`wrap_chunks_fuel_stable` makes the fuel-independence precise). -/
def wrap_chunks_fuel : ℕ → Bool → List Chunk → List (List Char)
  | 0, _, _ => []
  | _ + 1, _, [] => []
  | fuel + 1, linesEmpty, c :: rest =>
    let t := take_line linesEmpty (c :: rest)
    match t.1 with
    | some l => l :: wrap_chunks_fuel fuel false t.2
    | none => wrap_chunks_fuel fuel linesEmpty t.2

/-- `TextWrapper._wrap_chunks` at width 35. -/
def wrap_chunks (linesEmpty : Bool) (chunks : List Chunk) : List (List Char) :=
  wrap_chunks_fuel (chunksLen chunks + 1) linesEmpty chunks

/-- `textwrap.wrap(line, width=35, break_long_words=True)`. -/
def py_textwrap (line : List Char) : List (List Char) :=
  wrap_chunks true (split_chunks (munge_whitespace line))

/-- `textwrap.wrap(line, ...) or ['']` — the comprehension at source line 241
replaces an empty wrap result by a single empty line. -/
def wrap_or_blank (line : List Char) : List (List Char) :=
  match py_textwrap line with
  | [] => [[]]
  | ls => ls

/-- Python `str.split('\n')`: always at least one piece; one extra piece per
newline. -/
def split_newlines : List Char → List (List Char)
  | [] => [[]]
  | c :: rest =>
    if c = '\n' then [] :: split_newlines rest
    else
      match split_newlines rest with
      | l :: ls => (c :: l) :: ls
      | [] => [[c]]

/-- Number of newline characters in a text. -/
def countNL (s : List Char) : ℕ := (s.filter (fun c => c = '\n')).length

/-- `padded_text = ("\n" * CAPTION_TOP_PADDING_LINES) + text`
(source line 237). -/
def padded_text (text : List Char) : List Char :=
  List.replicate CAPTION_TOP_PADDING_LINES '\n' ++ text

/-- The `final_lines` list comprehension of source line 241. -/
def final_lines (text : List Char) : List (List Char) :=
  ((split_newlines (padded_text text)).map wrap_or_blank).flatten

/-! Lemmas about the word-wrap embedding. -/

theorem chunkLen_pos (c : Chunk) : 1 ≤ chunkLen c :=
  Nat.succ_le_succ (Nat.zero_le _)

theorem chunksLen_cons (c : Chunk) (cs : List Chunk) :
    chunksLen (c :: cs) = chunkLen c + chunksLen cs := by
  simp [chunksLen]

theorem chunksLen_append (a b : List Chunk) :
    chunksLen (a ++ b) = chunksLen a + chunksLen b := by
  simp [chunksLen]

theorem length_chunkChars (c : Chunk) : (chunkChars c).length = chunkLen c := rfl

theorem sum_map_length_chunkChars (taken : List Chunk) :
    ((taken.map chunkChars).map List.length).sum = chunksLen taken := by
  simp [chunksLen, List.map_map]
  rfl

theorem fill_line_facts (w : ℕ) (chunks : List Chunk) : ∀ n : ℕ,
    (fill_line w chunks n).1 ++ (fill_line w chunks n).2.1 = chunks ∧
    (fill_line w chunks n).2.2 = n + chunksLen (fill_line w chunks n).1 ∧
    (n ≤ w → (fill_line w chunks n).2.2 ≤ w) := by
  induction chunks with
  | nil => intro n; simp [fill_line, chunksLen]
  | cons c rest ih =>
    intro n
    by_cases h : n + chunkLen c ≤ w
    · have ihh := ih (n + chunkLen c)
      simp only [fill_line, if_pos h]
      refine ⟨by rw [List.cons_append, ihh.1], ?_, fun _ => ihh.2.2 h⟩
      rw [ihh.2.1, chunksLen_cons]
      omega
    · simp [fill_line, if_neg h, chunksLen]

theorem fill_line_head_big (w : ℕ) (c : Chunk) (rest : List Chunk) (n : ℕ)
    (h : (fill_line w (c :: rest) n).1 = []) : w < n + chunkLen c := by
  by_contra hc
  push_neg at hc
  simp [fill_line, if_pos hc] at h

theorem rfindDash_lt (l : List Char) : ∀ i : ℕ, rfindDash l = some i → i < l.length := by
  induction l with
  | nil => intro i h; simp [rfindDash] at h
  | cons c rest ih =>
    intro i h
    simp only [rfindDash] at h
    cases hr : rfindDash rest with
    | some j =>
      rw [hr] at h
      simp only [Option.some.injEq] at h
      have := ih j hr
      simp only [List.length_cons]
      omega
    | none =>
      rw [hr] at h
      by_cases hd : c = '-'
      · rw [if_pos hd] at h
        simp only [Option.some.injEq] at h
        simp only [List.length_cons]
        omega
      · rw [if_neg hd] at h
        exact absurd h (by simp)

theorem chunksLen_ofChars (l : List Char) : chunksLen (ofChars l) = l.length := by
  cases l <;> simp [ofChars, chunksLen, chunkLen]

theorem handle_take_le (n : ℕ) (c : Chunk) :
    (handle_long_word 35 n c).1.length ≤ 35 - n := by
  have h35 : ¬ ((35 : ℕ) < 1) := by omega
  unfold handle_long_word
  simp only [if_neg h35]
  rw [List.length_take]
  split
  · split
    · split
      · next hy hfind _ =>
        have hlt := rfindDash_lt _ hy hfind
        rw [List.length_take, lt_min_iff] at hlt
        have h2 : hy + 1 ≤ 35 - n := by omega
        exact le_trans (Nat.min_le_left _ _) h2
      · exact Nat.min_le_left _ _
    · exact Nat.min_le_left _ _
  · exact Nat.min_le_left _ _

theorem handle_chunksLen_le (n : ℕ) (c : Chunk) :
    chunksLen (handle_long_word 35 n c).2 ≤ chunkLen c := by
  unfold handle_long_word
  simp only []
  rw [chunksLen_ofChars, List.length_drop, ← length_chunkChars]
  exact Nat.sub_le _ _

theorem handle_chunksLen_lt (c : Chunk) (hc : 35 < chunkLen c) :
    chunksLen (handle_long_word 35 0 c).2 < chunkLen c := by
  have h35 : ¬ ((35 : ℕ) < 1) := by omega
  have hlen : (chunkChars c).length = chunkLen c := length_chunkChars c
  have hcpos : 0 < chunkLen c := by omega
  have hepos : 0 < (if (35 - 0 : ℕ) < (chunkChars c).length then
      match rfindDash ((chunkChars c).take (35 - 0)) with
      | some hy =>
        if 0 < hy ∧ ((chunkChars c).take hy).any (fun ch => ch ≠ '-') then hy + 1
        else 35 - 0
      | none => 35 - 0
    else 35 - 0) := by
    split
    · split
      · split
        · exact Nat.succ_pos _
        · decide
      · decide
    · decide
  unfold handle_long_word
  simp only [if_neg h35]
  rw [chunksLen_ofChars, List.length_drop, hlen]
  exact Nat.sub_lt hcpos hepos

theorem line_step_core_chunksLen_le (taken rem : List Chunk) (n : ℕ) :
    chunksLen (line_step_core taken rem n).2 ≤ chunksLen rem := by
  cases rem with
  | nil => simp [line_step_core, chunksLen]
  | cons c rest =>
    simp only [line_step_core]
    split
    · simp only []
      rw [chunksLen_append, chunksLen_cons]
      have := handle_chunksLen_le n c
      omega
    · simp

theorem line_step_core_sum_le (taken rem : List Chunk) (n : ℕ)
    (hn : n = chunksLen taken) (hn35 : n ≤ 35) :
    (((line_step_core taken rem n).1).map List.length).sum ≤ 35 := by
  cases rem with
  | nil =>
    simp only [line_step_core]
    rw [sum_map_length_chunkChars]
    omega
  | cons c rest =>
    simp only [line_step_core]
    split
    · simp only [List.map_append, List.sum_append, List.map_cons, List.sum_cons,
        List.map_nil, List.sum_nil]
      rw [sum_map_length_chunkChars]
      have := handle_take_le n c
      omega
    · simp only []
      rw [sum_map_length_chunkChars]
      omega

theorem line_step_chunksLen_le (cs : List Chunk) :
    chunksLen (line_step cs).2 ≤ chunksLen cs := by
  unfold line_step
  have h1 := (fill_line_facts 35 cs 0).1
  have h2 := line_step_core_chunksLen_le (fill_line 35 cs 0).1 (fill_line 35 cs 0).2.1
    (fill_line 35 cs 0).2.2
  have h3 : chunksLen (fill_line 35 cs 0).1 + chunksLen (fill_line 35 cs 0).2.1 =
      chunksLen cs := by
    rw [← chunksLen_append, h1]
  omega

theorem line_step_chunksLen_lt (cs : List Chunk) (hcs : cs ≠ []) :
    chunksLen (line_step cs).2 < chunksLen cs := by
  obtain ⟨c, rest, rfl⟩ : ∃ c rest, cs = c :: rest := by
    cases cs with
    | nil => exact absurd rfl hcs
    | cons c rest => exact ⟨c, rest, rfl⟩
  have hfacts := fill_line_facts 35 (c :: rest) 0
  have hsplit : chunksLen (fill_line 35 (c :: rest) 0).1 +
      chunksLen (fill_line 35 (c :: rest) 0).2.1 = chunksLen (c :: rest) := by
    rw [← chunksLen_append, hfacts.1]
  cases htk : (fill_line 35 (c :: rest) 0).1 with
  | cons c' tk =>
    have hpos : 1 ≤ chunksLen (fill_line 35 (c :: rest) 0).1 := by
      rw [htk, chunksLen_cons]
      have := chunkLen_pos c'
      omega
    have := line_step_core_chunksLen_le (fill_line 35 (c :: rest) 0).1
      (fill_line 35 (c :: rest) 0).2.1 (fill_line 35 (c :: rest) 0).2.2
    unfold line_step
    omega
  | nil =>
    have hrem : (fill_line 35 (c :: rest) 0).2.1 = c :: rest := by
      have := hfacts.1
      rw [htk] at this
      simpa using this
    have hn : (fill_line 35 (c :: rest) 0).2.2 = 0 := by
      have := hfacts.2.1
      rw [htk] at this
      simpa [chunksLen] using this
    have hbig : 35 < chunkLen c := by
      have := fill_line_head_big 35 c rest 0 htk
      omega
    unfold line_step
    rw [hrem, hn]
    unfold line_step_core
    simp only [if_pos hbig]
    rw [chunksLen_append, chunksLen_cons]
    have := handle_chunksLen_lt c hbig
    omega

theorem sum_map_length_dropLast (cur : List (List Char)) :
    ((cur.dropLast).map List.length).sum ≤ (cur.map List.length).sum := by
  induction cur with
  | nil => simp
  | cons x xs ih =>
    cases xs with
    | nil => simp
    | cons y ys =>
      simp only [List.dropLast_cons₂, List.map_cons, List.sum_cons]
      have := ih
      simp only [List.map_cons, List.sum_cons] at this
      omega

theorem drop_trailing_ws_sum_le (cur : List (List Char)) :
    (((drop_trailing_ws cur).map List.length).sum) ≤ (cur.map List.length).sum := by
  unfold drop_trailing_ws
  split
  · split
    · exact sum_map_length_dropLast cur
    · exact le_refl _
  · exact le_refl _

theorem take_line_width (le : Bool) (cs : List Chunk) (l : List Char)
    (h : (take_line le cs).1 = some l) : l.length ≤ 35 := by
  have h2 : (if (drop_trailing_ws (line_step (drop_leading_ws le cs)).1).isEmpty = true
      then (none : Option (List Char))
      else some (drop_trailing_ws (line_step (drop_leading_ws le cs)).1).flatten) = some l := h
  split at h2
  · exact absurd h2 (by simp)
  · simp only [Option.some.injEq] at h2
    subst h2
    rw [List.length_flatten]
    have hsum := line_step_core_sum_le (fill_line 35 (drop_leading_ws le cs) 0).1
      (fill_line 35 (drop_leading_ws le cs) 0).2.1
      (fill_line 35 (drop_leading_ws le cs) 0).2.2
      (by simpa using (fill_line_facts 35 (drop_leading_ws le cs) 0).2.1)
      ((fill_line_facts 35 (drop_leading_ws le cs) 0).2.2 (by omega))
    have hdrop := drop_trailing_ws_sum_le (line_step (drop_leading_ws le cs)).1
    have hconv : (List.map List.length ((line_step (drop_leading_ws le cs)).1)).sum =
        (List.map List.length ((line_step_core (fill_line 35 (drop_leading_ws le cs) 0).1
          (fill_line 35 (drop_leading_ws le cs) 0).2.1
          (fill_line 35 (drop_leading_ws le cs) 0).2.2).1)).sum := rfl
    omega

theorem take_line_chunksLen_lt (le : Bool) (cs : List Chunk) (hcs : cs ≠ []) :
    chunksLen (take_line le cs).2 < chunksLen cs := by
  have h0 : (take_line le cs).2 = (line_step (drop_leading_ws le cs)).2 := rfl
  rw [h0]
  cases cs with
  | nil => exact absurd rfl hcs
  | cons c rest =>
    by_cases hd : le = false ∧ isWSChunk c = true
    · have h1 : drop_leading_ws le (c :: rest) = rest := by
        simp only [drop_leading_ws]
        rw [if_pos hd]
      rw [h1]
      have h2 := line_step_chunksLen_le rest
      rw [chunksLen_cons]
      have := chunkLen_pos c
      omega
    · have h1 : drop_leading_ws le (c :: rest) = c :: rest := by
        simp only [drop_leading_ws]
        rw [if_neg hd]
      rw [h1]
      exact line_step_chunksLen_lt (c :: rest) (by simp)

theorem wrap_chunks_fuel_width (fuel : ℕ) : ∀ (le : Bool) (cs : List Chunk) (l : List Char),
    l ∈ wrap_chunks_fuel fuel le cs → l.length ≤ 35 := by
  induction fuel with
  | zero => intro le cs l h; simp [wrap_chunks_fuel] at h
  | succ fuel ih =>
    intro le cs l h
    cases cs with
    | nil => simp [wrap_chunks_fuel] at h
    | cons c rest =>
      cases hts : (take_line le (c :: rest)).1 with
      | some l' =>
        have hunf : wrap_chunks_fuel (fuel + 1) le (c :: rest) =
            l' :: wrap_chunks_fuel fuel false (take_line le (c :: rest)).2 := by
          simp only [wrap_chunks_fuel]
          rw [hts]
        rw [hunf] at h
        simp only [List.mem_cons] at h
        rcases h with rfl | h
        · exact take_line_width le (c :: rest) l hts
        · exact ih _ _ _ h
      | none =>
        have hunf : wrap_chunks_fuel (fuel + 1) le (c :: rest) =
            wrap_chunks_fuel fuel le (take_line le (c :: rest)).2 := by
          simp only [wrap_chunks_fuel]
          rw [hts]
        rw [hunf] at h
        exact ih _ _ _ h

theorem wrap_chunks_fuel_stable (f1 : ℕ) : ∀ (f2 : ℕ) (le : Bool) (cs : List Chunk),
    chunksLen cs < f1 → chunksLen cs < f2 →
    wrap_chunks_fuel f1 le cs = wrap_chunks_fuel f2 le cs := by
  induction f1 with
  | zero => intro f2 le cs h1 h2; omega
  | succ f1 ih =>
    intro f2 le cs h1 h2
    cases f2 with
    | zero => omega
    | succ f2 =>
      cases cs with
      | nil => simp [wrap_chunks_fuel]
      | cons c rest =>
        have hlt := take_line_chunksLen_lt le (c :: rest) (by simp)
        cases hts : (take_line le (c :: rest)).1 with
        | some l' =>
          have hu1 : wrap_chunks_fuel (f1 + 1) le (c :: rest) =
              l' :: wrap_chunks_fuel f1 false (take_line le (c :: rest)).2 := by
            simp only [wrap_chunks_fuel]
            rw [hts]
          have hu2 : wrap_chunks_fuel (f2 + 1) le (c :: rest) =
              l' :: wrap_chunks_fuel f2 false (take_line le (c :: rest)).2 := by
            simp only [wrap_chunks_fuel]
            rw [hts]
          rw [hu1, hu2, ih f2 false _ (by omega) (by omega)]
        | none =>
          have hu1 : wrap_chunks_fuel (f1 + 1) le (c :: rest) =
              wrap_chunks_fuel f1 le (take_line le (c :: rest)).2 := by
            simp only [wrap_chunks_fuel]
            rw [hts]
          have hu2 : wrap_chunks_fuel (f2 + 1) le (c :: rest) =
              wrap_chunks_fuel f2 le (take_line le (c :: rest)).2 := by
            simp only [wrap_chunks_fuel]
            rw [hts]
          rw [hu1, hu2]
          exact ih f2 le _ (by omega) (by omega)

theorem wrap_chunks_width (le : Bool) (cs : List Chunk) (l : List Char)
    (h : l ∈ wrap_chunks le cs) : l.length ≤ 35 :=
  wrap_chunks_fuel_width _ _ _ _ h

theorem wrap_or_blank_ne_nil (line : List Char) : wrap_or_blank line ≠ [] := by
  unfold wrap_or_blank
  cases h : py_textwrap line <;> simp

theorem wrap_or_blank_width (line l : List Char)
    (h : l ∈ wrap_or_blank line) : l.length ≤ 35 := by
  cases hp : py_textwrap line with
  | nil =>
    have hblank : wrap_or_blank line = [[]] := by
      unfold wrap_or_blank
      rw [hp]
    rw [hblank] at h
    simp only [List.mem_singleton] at h
    subst h
    simp
  | cons a ls =>
    have heq : wrap_or_blank line = a :: ls := by
      unfold wrap_or_blank
      rw [hp]
    rw [heq, ← hp] at h
    exact wrap_chunks_width true (split_chunks (munge_whitespace line)) l h

theorem split_newlines_ne_nil (s : List Char) : split_newlines s ≠ [] := by
  induction s with
  | nil => simp [split_newlines]
  | cons c rest ih =>
    simp only [split_newlines]
    split
    · simp
    · cases h : split_newlines rest with
      | nil => exact absurd h ih
      | cons l ls => simp

theorem countNL_cons (c : Char) (rest : List Char) :
    countNL (c :: rest) = if c = '\n' then countNL rest + 1 else countNL rest := by
  by_cases h : c = '\n' <;> simp [countNL, List.filter_cons, h]

theorem split_newlines_length (s : List Char) :
    (split_newlines s).length = countNL s + 1 := by
  induction s with
  | nil => simp [split_newlines, countNL]
  | cons c rest ih =>
    rw [countNL_cons]
    by_cases h : c = '\n'
    · simp only [split_newlines, if_pos h, List.length_cons]
      omega
    · simp only [split_newlines, if_neg h]
      cases hs : split_newlines rest with
      | nil => exact absurd hs (split_newlines_ne_nil rest)
      | cons l ls =>
        rw [hs] at ih
        simp only [List.length_cons] at ih ⊢
        omega

theorem le_length_flatten (L : List (List (List Char))) (h : ∀ x ∈ L, x ≠ []) :
    L.length ≤ L.flatten.length := by
  induction L with
  | nil => simp
  | cons x xs ih =>
    simp only [List.flatten_cons, List.length_append, List.length_cons]
    have hx : 0 < x.length := List.length_pos.mpr (h x (by simp))
    have := ih (fun y hy => h y (by simp [hy]))
    omega

theorem wrap_chunks_eq_fuel (le : Bool) (cs : List Chunk) (fuel : ℕ)
    (h : chunksLen cs < fuel) :
    wrap_chunks le cs = wrap_chunks_fuel fuel le cs :=
  wrap_chunks_fuel_stable (chunksLen cs + 1) fuel le cs (by omega) h

/-- C5: the caption word-wrap (source line 241) wraps every input line
independently at column width 35 breaking long words, so no output line
exceeds 35 characters; a blank input line yields exactly one empty output
line; and the number of output lines is at least one more than the number of
embedded newlines in the input. -/
theorem c5_wordwrap (text : List Char) :
    (∀ l ∈ final_lines text, l.length ≤ 35) ∧
    wrap_or_blank [] = [[]] ∧
    countNL text + 1 ≤ (final_lines text).length := by
  refine ⟨?_, rfl, ?_⟩
  · intro l hl
    unfold final_lines at hl
    rw [List.mem_flatten] at hl
    obtain ⟨ls, hls, hl2⟩ := hl
    rw [List.mem_map] at hls
    obtain ⟨line, _, rfl⟩ := hls
    exact wrap_or_blank_width line l hl2
  · unfold final_lines
    have h1 : (split_newlines (padded_text text)).length = countNL (padded_text text) + 1 :=
      split_newlines_length _
    have h2 : countNL (padded_text text) = countNL text := by
      simp [padded_text, CAPTION_TOP_PADDING_LINES]
    have h3 := le_length_flatten ((split_newlines (padded_text text)).map wrap_or_blank)
      (by
        intro x hx
        rw [List.mem_map] at hx
        obtain ⟨line, _, rfl⟩ := hx
        exact wrap_or_blank_ne_nil line)
    rw [List.length_map] at h3
    omega

/-! Lemmas about the cleanup step and the pipeline. -/

theorem cleanup_files_cons (rf fs : String → Bool) (p : String) (rest : List String) :
    cleanup_files rf fs (p :: rest) =
      if p ≠ "" ∧ fs p = true then
        (if rf p = true then cleanup_files rf fs rest
         else cleanup_files rf (fun q => if q = p then false else fs q) rest)
      else cleanup_files rf fs rest := by
  simp only [cleanup_files, os_remove]
  by_cases hc : p ≠ "" ∧ fs p = true
  · rw [if_pos hc, if_pos hc]
    by_cases hrf : rf p = true
    · rw [if_pos hrf, if_pos hrf]
    · rw [if_neg hrf, if_neg hrf]
  · rw [if_neg hc, if_neg hc]

theorem cleanup_files_isOk (rf : String → Bool) (ps : List String) :
    ∀ fs : String → Bool, ∃ fs2, cleanup_files rf fs ps = Except.ok fs2 := by
  induction ps with
  | nil => intro fs; exact ⟨fs, rfl⟩
  | cons p rest ih =>
    intro fs
    rw [cleanup_files_cons]
    by_cases hc : p ≠ "" ∧ fs p = true
    · rw [if_pos hc]
      by_cases hrf : rf p = true
      · rw [if_pos hrf]; exact ih fs
      · rw [if_neg hrf]; exact ih _
    · rw [if_neg hc]; exact ih fs

theorem cleanup_files_mono (rf : String → Bool) (ps : List String) :
    ∀ (fs fs2 : String → Bool) (p : String),
      cleanup_files rf fs ps = Except.ok fs2 → fs p = false → fs2 p = false := by
  induction ps with
  | nil =>
    intro fs fs2 p h hfp
    simp only [cleanup_files, Except.ok.injEq] at h
    rw [← h]
    exact hfp
  | cons q rest ih =>
    intro fs fs2 p h hfp
    rw [cleanup_files_cons] at h
    by_cases hc : q ≠ "" ∧ fs q = true
    · rw [if_pos hc] at h
      by_cases hrf : rf q = true
      · rw [if_pos hrf] at h
        exact ih fs fs2 p h hfp
      · rw [if_neg hrf] at h
        refine ih _ fs2 p h ?_
        by_cases hpq : p = q
        · simp [hpq]
        · simp [hpq, hfp]
    · rw [if_neg hc] at h
      exact ih fs fs2 p h hfp

theorem cleanup_files_removes (rf : String → Bool) (ps : List String) :
    ∀ fs : String → Bool, (∀ p ∈ ps, rf p = false) → (∀ p ∈ ps, p ≠ "") →
      ∃ fs2, cleanup_files rf fs ps = Except.ok fs2 ∧ ∀ p ∈ ps, fs2 p = false := by
  induction ps with
  | nil => intro fs _ _; exact ⟨fs, rfl, by simp⟩
  | cons q rest ih =>
    intro fs h1 h2
    have hq1 : rf q = false := h1 q (by simp)
    have hq2 : q ≠ "" := h2 q (by simp)
    have hrf : ¬ (rf q = true) := by simp [hq1]
    rw [cleanup_files_cons]
    by_cases hfsq : fs q = true
    · rw [if_pos ⟨hq2, hfsq⟩, if_neg hrf]
      obtain ⟨fs2, hok, hrem⟩ := ih (fun r => if r = q then false else fs r)
        (fun p hp => h1 p (by simp [hp])) (fun p hp => h2 p (by simp [hp]))
      refine ⟨fs2, hok, ?_⟩
      intro p hp
      rcases List.mem_cons.mp hp with rfl | hp2
      · exact cleanup_files_mono rf rest _ fs2 p hok (by simp)
      · exact hrem p hp2
    · have hcond : ¬ (q ≠ "" ∧ fs q = true) := by simp [hfsq]
      rw [if_neg hcond]
      obtain ⟨fs2, hok, hrem⟩ := ih fs (fun p hp => h1 p (by simp [hp]))
        (fun p hp => h2 p (by simp [hp]))
      refine ⟨fs2, hok, ?_⟩
      intro p hp
      rcases List.mem_cons.mp hp with rfl | hp2
      · exact cleanup_files_mono rf rest fs fs2 p hok (by simpa using hfsq)
      · exact hrem p hp2

theorem download_save_path_ne_empty (job_id ext : String) :
    download_save_path job_id ext ≠ "" := by
  intro h
  have hl := congrArg String.length h
  simp only [download_save_path, DOWNLOAD_PATH, String.length_append] at hl
  rw [show String.length "" = 0 from rfl, show String.length "downloads" = 9 from rfl,
    show String.length "/" = 1 from rfl] at hl
  omega

theorem caption_image_path_ne_empty (job_id : String) :
    caption_image_path job_id ≠ "" := by
  intro h
  have hl := congrArg String.length h
  simp only [caption_image_path, OUTPUT_PATH, String.length_append] at hl
  rw [show String.length "" = 0 from rfl, show String.length "outputs" = 7 from rfl,
    show String.length "/caption_" = 9 from rfl, show String.length ".png" = 4 from rfl] at hl
  omega

theorem output_filepath_ne_empty (job_id : String) :
    output_filepath job_id ≠ "" := by
  intro h
  have hl := congrArg String.length h
  simp only [output_filepath, OUTPUT_PATH, String.length_append] at hl
  rw [show String.length "" = 0 from rfl, show String.length "outputs" = 7 from rfl,
    show String.length "/output_" = 8 from rfl, show String.length ".mp4" = 4 from rfl] at hl
  omega

theorem frame_output_path_ne_empty (job_id : String) :
    frame_output_path job_id ≠ "" := by
  intro h
  have hl := congrArg String.length h
  simp only [frame_output_path, OUTPUT_PATH, String.length_append] at hl
  rw [show String.length "" = 0 from rfl, show String.length "outputs" = 7 from rfl,
    show String.length "/frame_" = 7 from rfl, show String.length ".jpg" = 4 from rfl] at hl
  omega

theorem job_body_files_ne_empty (job : JobData) (w : JobWorld) :
    ∀ p ∈ (job_body job w).files_to_clean, p ≠ "" := by
  intro p hp
  rcases w with ⟨dl, pe, cap, enc, fr, sub⟩
  cases dl with
  | none => simp [job_body] at hp
  | some ext =>
    cases hgm : get_media_dimensions pe job.media_type with
    | error e =>
      simp [job_body, hgm] at hp
      subst hp
      exact download_save_path_ne_empty _ _
    | ok t =>
      obtain ⟨a, b, c⟩ := t
      by_cases htr : (truthyNat a && truthyNat b && truthyRat c) = true
      · cases cap with
        | false =>
          simp [job_body, hgm, htr] at hp
          subst hp
          exact download_save_path_ne_empty _ _
        | true =>
          cases enc with
          | error e2 =>
            simp [job_body, hgm, htr] at hp
            rcases hp with rfl | rfl
            · exact download_save_path_ne_empty _ _
            · exact caption_image_path_ne_empty _
          | ok rc =>
            by_cases hrc : rc = 0
            · cases fr with
              | false =>
                simp [job_body, hgm, htr, hrc] at hp
                rcases hp with rfl | rfl | rfl
                · exact download_save_path_ne_empty _ _
                · exact caption_image_path_ne_empty _
                · exact output_filepath_ne_empty _
              | true =>
                cases sub with
                | ok bres =>
                  simp [job_body, hgm, htr, hrc] at hp
                  rcases hp with rfl | rfl | rfl | rfl
                  · exact download_save_path_ne_empty _ _
                  · exact caption_image_path_ne_empty _
                  · exact output_filepath_ne_empty _
                  · exact frame_output_path_ne_empty _
                | error e3 =>
                  simp [job_body, hgm, htr, hrc] at hp
                  rcases hp with rfl | rfl | rfl | rfl
                  · exact download_save_path_ne_empty _ _
                  · exact caption_image_path_ne_empty _
                  · exact output_filepath_ne_empty _
                  · exact frame_output_path_ne_empty _
            · simp [job_body, hgm, htr, hrc] at hp
              rcases hp with rfl | rfl
              · exact download_save_path_ne_empty _ _
              · exact caption_image_path_ne_empty _
      · simp [job_body, hgm, htr] at hp
        subst hp
        exact download_save_path_ne_empty _ _

theorem job_body_attempts (job : JobData) (w : JobWorld) :
    ((job_body job w).delivery_attempts = 1 ↔ all_stages_ok job w) ∧
    (job_body job w).delivery_attempts ≤ 1 := by
  rcases w with ⟨dl, pe, cap, enc, fr, sub⟩
  cases dl with
  | none => simp [job_body, all_stages_ok]
  | some ext =>
    cases hgm : get_media_dimensions pe job.media_type with
    | error e => simp [job_body, hgm, all_stages_ok]
    | ok t =>
      obtain ⟨a, b, c⟩ := t
      by_cases htr : (truthyNat a && truthyNat b && truthyRat c) = true
      · have htr3 := htr
        rw [Bool.and_eq_true, Bool.and_eq_true] at htr3
        obtain ⟨⟨hta, htb⟩, htc⟩ := htr3
        cases cap with
        | false => simp [job_body, hgm, htr, all_stages_ok, hta, htb, htc]
        | true =>
          cases enc with
          | error e2 => simp [job_body, hgm, htr, all_stages_ok, hta, htb, htc]
          | ok rc =>
            by_cases hrc : rc = 0
            · cases fr with
              | false => simp [job_body, hgm, htr, hrc, all_stages_ok, hta, htb, htc]
              | true =>
                cases sub with
                | ok bres =>
                  simp [job_body, hgm, htr, hrc, all_stages_ok, hta, htb, htc]
                  exact ⟨a, b, c, ⟨rfl, rfl, rfl⟩, hta, htb, htc⟩
                | error e3 =>
                  simp [job_body, hgm, htr, hrc, all_stages_ok, hta, htb, htc]
                  exact ⟨a, b, c, ⟨rfl, rfl, rfl⟩, hta, htb, htc⟩
            · simp [job_body, hgm, htr, hrc, all_stages_ok, hta, htb, htc]
      · constructor
        · constructor
          · intro h0
            simp [job_body, hgm, htr] at h0
          · intro hok
            exfalso
            obtain ⟨_, ⟨a', b', c', hgm2, h1, h2, h3⟩, _⟩ := hok
            rw [hgm] at hgm2
            simp only [Except.ok.injEq, Prod.mk.injEq] at hgm2
            obtain ⟨ha', hb', hc'⟩ := hgm2
            subst ha'
            subst hb'
            subst hc'
            exact htr (by rw [h1, h2, h3]; rfl)
        · simp [job_body, hgm, htr]

/-- C2: on every exit path of the Job Pipeline (any combination of stage
outcomes, encoded by the world `w`), the `finally` cleanup over the recorded
artifact set never raises — even when deletions fail (`rf2` arbitrary) or
files are already missing (`fs` arbitrary) — and when no deletion error hits
the recorded paths, every recorded path is removed. -/
theorem c2_cleanup (job : JobData) (w : JobWorld) (fs rf rf2 : String → Bool)
    (hrf : ∀ p ∈ (job_body job w).files_to_clean, rf p = false) :
    (∃ fs2, cleanup_files rf2 fs (job_body job w).files_to_clean = Except.ok fs2) ∧
    (∃ fs2, cleanup_files rf fs (job_body job w).files_to_clean = Except.ok fs2 ∧
      ∀ p ∈ (job_body job w).files_to_clean, fs2 p = false) := by
  refine ⟨cleanup_files_isOk rf2 _ fs, ?_⟩
  exact cleanup_files_removes rf _ fs hrf (job_body_files_ne_empty job w)

/-- Witness for C2 at a fully successful pipeline run on a filesystem where
every path exists. -/
theorem c2_cleanup_witness :
    (∃ fs2, cleanup_files (fun _ => true) (fun _ => true)
        (job_body ⟨"j", MediaType.video⟩
          ⟨some (".mp4"), ⟨Except.ok (3, 4), some (100, 100, 12)⟩, true,
            Except.ok 0, true, Except.ok true⟩).files_to_clean = Except.ok fs2) ∧
    (∃ fs2, cleanup_files (fun _ => false) (fun _ => true)
        (job_body ⟨"j", MediaType.video⟩
          ⟨some (".mp4"), ⟨Except.ok (3, 4), some (100, 100, 12)⟩, true,
            Except.ok 0, true, Except.ok true⟩).files_to_clean = Except.ok fs2 ∧
      ∀ p ∈ (job_body ⟨"j", MediaType.video⟩
          ⟨some (".mp4"), ⟨Except.ok (3, 4), some (100, 100, 12)⟩, true,
            Except.ok 0, true, Except.ok true⟩).files_to_clean, fs2 p = false) :=
  c2_cleanup ⟨"j", MediaType.video⟩
    ⟨some (".mp4"), ⟨Except.ok (3, 4), some (100, 100, 12)⟩, true, Except.ok 0, true,
      Except.ok true⟩
    (fun _ => true) (fun _ => false) (fun _ => true) (fun _ _ => rfl)

/-- C9: delivery is attempted (exactly once) iff Acquire, Probe,
RenderCaption, Plan&Encode and ExtractFrame all succeeded; delivery is never
attempted more than once (no retry); and `process_video_job` returns normally
(never raises, never re-enqueues) whatever the delivery outcome, running
cleanup on the way out. -/
theorem c9_delivery (job : JobData) (w : JobWorld) (fs rf : String → Bool) :
    ((job_body job w).delivery_attempts = 1 ↔ all_stages_ok job w) ∧
    (job_body job w).delivery_attempts ≤ 1 ∧
    (∃ fs2, process_video_job job w fs rf = Except.ok (fs2, job_body job w)) := by
  obtain ⟨fs2, hok⟩ := cleanup_files_isOk rf (job_body job w).files_to_clean fs
  refine ⟨(job_body_attempts job w).1, (job_body_attempts job w).2, ⟨fs2, ?_⟩⟩
  unfold process_video_job
  rw [hok]

/-- C10: a probe that reports a zero width, height or duration makes the
pipeline abort at the probe check: the run records only the downloaded source
in the artifact set, marks the probe stage failed, and attempts no delivery;
cleanup on a filesystem containing that file then removes it. -/
theorem c10_zero_probe (job : JobData) (w : JobWorld) (mw mh : ℕ) (md : ℚ) (ext : String)
    (fs : String → Bool)
    (hdl : w.downloadExt = some ext)
    (hpr : get_media_dimensions w.probeEnv job.media_type =
      Except.ok (some mw, some mh, some md))
    (hz : mw = 0 ∨ mh = 0 ∨ md = 0)
    (hfs : fs (download_save_path job.job_id ext) = true) :
    job_body job w = ⟨[download_save_path job.job_id ext], 0, some Stage.probe⟩ ∧
    cleanup_files (fun _ => false) fs [download_save_path job.job_id ext] =
      Except.ok (fun q => if q = download_save_path job.job_id ext then false else fs q) := by
  have hcond : ¬ ((truthyNat (some mw) && truthyNat (some mh) && truthyRat (some md)) = true) := by
    rcases hz with rfl | rfl | rfl <;> simp [truthyNat, truthyRat]
  constructor
  · rcases w with ⟨dl, pe, cap, enc, fr, sub⟩
    simp only at hdl hpr
    subst hdl
    simp [job_body, hpr, hcond]
  · rw [cleanup_files_cons]
    rw [if_pos ⟨download_save_path_ne_empty _ _, hfs⟩, if_neg (by simp)]
    simp only [cleanup_files]

/-- Witness for C10: an ffprobe run reporting duration 0.0 on a downloaded
video. -/
theorem c10_zero_probe_witness :
    job_body ⟨"j", MediaType.video⟩
        ⟨some (".mp4"), ⟨Except.ok (3, 4), some (100, 100, 0)⟩, true, Except.ok 0, true,
          Except.ok true⟩ =
      ⟨[download_save_path "j" (".mp4")], 0, some Stage.probe⟩ ∧
    cleanup_files (fun _ => false) (fun _ => true) [download_save_path "j" (".mp4")] =
      Except.ok (fun q => if q = download_save_path "j" (".mp4") then false else true) :=
  c10_zero_probe ⟨"j", MediaType.video⟩
    ⟨some (".mp4"), ⟨Except.ok (3, 4), some (100, 100, 0)⟩, true, Except.ok 0, true,
      Except.ok true⟩
    100 100 0 (".mp4") (fun _ => true) rfl rfl (Or.inr (Or.inr rfl)) rfl

/-- C6: the encode filter scales the media to exactly the canvas width 1080
with ffmpeg choosing the height (`scale=1080:-1`); the Python-side
`scaled_media_h` is `int(media_h * (1080 / media_w))`, within one of the
exact aspect-preserving value `1080 * h / w`; and the vertical position is
`int(COMP_HEIGHT / 2 - scaled_media_h / 2 + MEDIA_Y_OFFSET)`. -/
theorem c6_geometry (w h : ℕ) (hw : 0 < w) (hh : 0 < h) :
    scaled_media_filter false = "[1:v]scale=1080:-1,setpts=PTS-STARTPTS[scaled_media]" ∧
    ((scaled_media_h w h : ℚ) ≤ (COMP_WIDTH : ℚ) * h / w ∧
      (COMP_WIDTH : ℚ) * h / w - 1 < (scaled_media_h w h : ℚ)) ∧
    media_y_pos w h =
      pyInt ((COMP_HEIGHT : ℚ) / 2 - (scaled_media_h w h : ℚ) / 2 + MEDIA_Y_OFFSET) := by
  refine ⟨rfl, ?_, rfl⟩
  have hq : (0 : ℚ) ≤ (h : ℚ) * scale_ratio_val w := by
    apply mul_nonneg (by positivity)
    unfold scale_ratio_val
    positivity
  have heq : (h : ℚ) * scale_ratio_val w = (COMP_WIDTH : ℚ) * h / w := by
    unfold scale_ratio_val
    ring
  have hfl : scaled_media_h w h = ⌊(COMP_WIDTH : ℚ) * h / w⌋ := by
    unfold scaled_media_h pyInt
    rw [if_pos hq, heq]
  constructor
  · rw [hfl]
    exact Int.floor_le _
  · rw [hfl]
    exact Int.sub_one_lt_floor _

/-- Witness for C6 at a 720x1280 source: the scale ratio is 3/2, the scaled
height 1920 and the vertical position 0. -/
theorem c6_geometry_witness :
    (0 : ℕ) < 720 ∧ (0 : ℕ) < 1280 ∧
    (scaled_media_filter false = "[1:v]scale=1080:-1,setpts=PTS-STARTPTS[scaled_media]" ∧
      ((scaled_media_h 720 1280 : ℚ) ≤ (COMP_WIDTH : ℚ) * 1280 / 720 ∧
        (COMP_WIDTH : ℚ) * 1280 / 720 - 1 < (scaled_media_h 720 1280 : ℚ)) ∧
      media_y_pos 720 1280 =
        pyInt ((COMP_HEIGHT : ℚ) / 2 - (scaled_media_h 720 1280 : ℚ) / 2 + MEDIA_Y_OFFSET)) :=
  ⟨by norm_num, by norm_num, c6_geometry 720 1280 (by norm_num) (by norm_num)⟩

/-- C8 counterexample: at a measured text block of 100x50 the canvas is
180x130, not the 260x210 the claim's `tw + 2*4*20` arithmetic demands:
`img_padding = SHADOW_BLUR_RADIUS * 4` is the TOTAL padding added to each
dimension, not the per-side padding. -/
theorem c8_counterexample :
    caption_img_size 100 50 ≠ (100 + 2 * 4 * 20, 50 + 2 * 4 * 20) := by
  decide

/-- C8 amended: the canvas measures `(tw + 4 * radius, th + 4 * radius)` —
the 4x-radius product is split as 2x radius (40 px) of padding per side, the
text being drawn at `(img_padding / 2, img_padding / 2) = (40, 40)`. -/
theorem c8_amended (tw th : ℕ) :
    caption_img_size tw th = (tw + 4 * SHADOW_BLUR_RADIUS, th + 4 * SHADOW_BLUR_RADIUS) ∧
    caption_text_pos = (2 * SHADOW_BLUR_RADIUS, 2 * SHADOW_BLUR_RADIUS) := by
  constructor
  · rfl
  · rfl

/-- C1 counterexample: at composition duration 12 s the frame is seeked at
`(12 - 0.5) / 2 = 5.75`, not `(12 - 0.4) / 2 = 5.8` as the claim states. -/
theorem c1_counterexample :
    frame_seek_time 12 ≠ (12 - output_seek_trim) / 2 := by
  norm_num [frame_seek_time, extract_frame_midpoint, trimmed_duration_calc, output_seek_trim]

/-- C1 amended: the frame is seeked at `(D - 0.5) / 2` — line 386 subtracts
0.5 — while the output seek actually applied to the encode is `-ss 0.4`
(line 367), so the subtracted constant differs from the applied trim for
every composition duration. -/
theorem c1_amended (D : ℚ) :
    frame_seek_time D = (D - 1/2) / 2 ∧
    output_seek_args = ["-ss", "0.4"] ∧
    trimmed_duration_calc D ≠ D - output_seek_trim := by
  refine ⟨rfl, rfl, ?_⟩
  unfold trimmed_duration_calc output_seek_trim
  intro hcontra
  have h5 : (1 : ℚ) / 2 = 2 / 5 := by linarith
  norm_num at h5

/-- C7 counterexample: an ffprobe run whose JSON parses to duration `0.0`
makes `get_media_dimensions` return the fully populated triple
`(100, 100, 0.0)` — a successful return whose duration is not positive, so
the probe does not guarantee positive-or-fail. -/
theorem c7_counterexample : ¬ probe_positive_claim cex_probe_env MediaType.video := by
  intro h
  have h2 := h (some 100) (some 100) (some 0) rfl
  rcases h2 with ⟨h1, _, _⟩ | ⟨w', h', d', _, _, hcc, _, _, hd, _⟩
  · exact absurd h1 (by simp)
  · rw [Option.some.injEq] at hcc
    rw [← hcc] at hd
    exact absurd hd (by norm_num)

/-- C7 amended: every successful probe return is either the all-`None`
failure triple (video probe failure) or fully populated — never a partially
populated triple — and a successful image probe always reports the fixed
`IMAGE_DURATION`; positivity of the components is NOT guaranteed. -/
theorem c7_amended (env : ProbeEnv) (t : MediaType) :
    (∀ a b c, get_media_dimensions env t = Except.ok (a, b, c) →
      ((a = none ∧ b = none ∧ c = none) ∨
        (a.isSome = true ∧ b.isSome = true ∧ c.isSome = true))) ∧
    (∀ a b c, get_media_dimensions env MediaType.image = Except.ok (a, b, c) →
      c = some IMAGE_DURATION) := by
  constructor
  · intro a b c hok
    cases t with
    | image =>
      cases hi : env.imageOpen with
      | ok p =>
        obtain ⟨pw, ph⟩ := p
        rw [show get_media_dimensions env MediaType.image =
            Except.ok (some pw, some ph, some IMAGE_DURATION) from by
          simp [get_media_dimensions, hi]] at hok
        simp only [Except.ok.injEq, Prod.mk.injEq] at hok
        obtain ⟨ha, hb, hc⟩ := hok
        subst ha
        subst hb
        subst hc
        right
        exact ⟨rfl, rfl, rfl⟩
      | error e =>
        rw [show get_media_dimensions env MediaType.image = Except.error e from by
          simp [get_media_dimensions, hi]] at hok
        exact absurd hok (by simp)
    | video =>
      cases hv : env.ffprobeRun with
      | some p =>
        obtain ⟨pw, ph, pd⟩ := p
        rw [show get_media_dimensions env MediaType.video =
            Except.ok (some pw, some ph, some pd) from by
          simp [get_media_dimensions, hv]] at hok
        simp only [Except.ok.injEq, Prod.mk.injEq] at hok
        obtain ⟨ha, hb, hc⟩ := hok
        subst ha
        subst hb
        subst hc
        right
        exact ⟨rfl, rfl, rfl⟩
      | none =>
        rw [show get_media_dimensions env MediaType.video =
            Except.ok (none, none, none) from by
          simp [get_media_dimensions, hv]] at hok
        simp only [Except.ok.injEq, Prod.mk.injEq] at hok
        obtain ⟨ha, hb, hc⟩ := hok
        subst ha
        subst hb
        subst hc
        left
        exact ⟨rfl, rfl, rfl⟩
  · intro a b c hok
    cases hi : env.imageOpen with
    | ok p =>
      obtain ⟨pw, ph⟩ := p
      rw [show get_media_dimensions env MediaType.image =
          Except.ok (some pw, some ph, some IMAGE_DURATION) from by
        simp [get_media_dimensions, hi]] at hok
      simp only [Except.ok.injEq, Prod.mk.injEq] at hok
      rw [← hok.2.2]
    | error e =>
      rw [show get_media_dimensions env MediaType.image = Except.error e from by
        simp [get_media_dimensions, hi]] at hok
      exact absurd hok (by simp)

/-- Witness for C7 amended: a failed video probe returns the all-`None`
triple, and a successful 3x4 image probe reports duration 12. -/
theorem c7_amended_witness :
    (((none : Option ℕ) = none ∧ (none : Option ℕ) = none ∧ (none : Option ℚ) = none) ∨
      ((none : Option ℕ).isSome = true ∧ (none : Option ℕ).isSome = true ∧
        (none : Option ℚ).isSome = true)) ∧
    (some (12 : ℚ)) = some IMAGE_DURATION :=
  ⟨(c7_amended ⟨Except.ok (3, 4), none⟩ MediaType.video).1 none none none rfl,
   (c7_amended ⟨Except.ok (3, 4), none⟩ MediaType.image).2 (some 3) (some 4) (some 12) rfl⟩

/-! Lemmas about the lifecycle controller. -/

theorem poll_first_job_isSome (f : ℕ → Option ℕ) (fuel : ℕ) : ∀ k : ℕ,
    ((poll_first_job f fuel k).1.isSome = true ↔
      ∃ i, k ≤ i ∧ i < k + fuel ∧ (f i).isSome = true) := by
  induction fuel with
  | zero =>
    intro k
    constructor
    · intro hcontra
      simp [poll_first_job] at hcontra
    · rintro ⟨i, h1, h2, _⟩
      omega
  | succ fuel ih =>
    intro k
    cases hf : f k with
    | some j =>
      have hL : (poll_first_job f (fuel + 1) k).1 = some j := by
        simp [poll_first_job, hf]
      rw [hL]
      simp only [Option.isSome_some]
      constructor
      · intro _
        exact ⟨k, le_refl k, by omega, by rw [hf]; rfl⟩
      · intro _
        trivial
    | none =>
      have hL : poll_first_job f (fuel + 1) k = poll_first_job f fuel (k + 1) := by
        simp [poll_first_job, hf]
      rw [hL, ih (k + 1)]
      constructor
      · rintro ⟨i, h1, h2, h3⟩
        exact ⟨i, by omega, by omega, h3⟩
      · rintro ⟨i, h1, h2, h3⟩
        refine ⟨i, ?_, by omega, h3⟩
        rcases Nat.eq_or_lt_of_le h1 with rfl | hgt
        · rw [hf] at h3
          exact absurd h3 (by simp)
        · omega

theorem poll_first_job_all_none (f : ℕ → Option ℕ) (hf : ∀ k, f k = none) (fuel : ℕ) :
    ∀ k : ℕ, poll_first_job f fuel k = (none, k + fuel) := by
  induction fuel with
  | zero => intro k; simp [poll_first_job]
  | succ fuel ih =>
    intro k
    have hL : poll_first_job f (fuel + 1) k = poll_first_job f fuel (k + 1) := by
      simp [poll_first_job, hf k]
    rw [hL, ih (k + 1)]
    simp only [Prod.mk.injEq]
    exact ⟨trivial, by omega⟩

/-- C3 counterexample: two runs of the lifecycle controller whose first
fetch returns the same result (empty) end in different modes, because the
controller keeps polling — here the first run performs two fetches, not
one — so the mode is not a function of a single initial fetch. -/
theorem c3_counterexample :
    cex_fetches 0 = cex_empty 0 ∧
    (poll_first_job cex_fetches 2 0).2 = 2 ∧
    lifecycle_mode cex_fetches 2 = Mode.Draining ∧
    lifecycle_mode cex_empty 2 = Mode.Probing :=
  ⟨rfl, rfl, rfl, rfl⟩

/-- C3 amended: the controller polls the queue repeatedly inside the startup
window (sleeping between empty fetches); the run commits to Draining exactly
when some fetch within the window returns a job, and to Probing exactly when
every fetch in the window comes back empty — one mode per run, computed once
from the polling phase and never re-evaluated afterwards. -/
theorem c3_amended (f : ℕ → Option ℕ) (fuel : ℕ) :
    (lifecycle_mode f fuel = Mode.Draining ↔ ∃ k, k < fuel ∧ (f k).isSome = true) ∧
    (lifecycle_mode f fuel = Mode.Probing ↔ ∀ k, k < fuel → f k = none) := by
  have hiff0 := poll_first_job_isSome f fuel 0
  simp only [Nat.zero_le, zero_add, true_and] at hiff0
  constructor
  · unfold lifecycle_mode
    cases hp : (poll_first_job f fuel 0).1 with
    | some j =>
      constructor
      · intro _
        have hs : (poll_first_job f fuel 0).1.isSome = true := by rw [hp]; rfl
        exact hiff0.mp hs
      · intro _
        rfl
    | none =>
      constructor
      · intro hcontra
        exact absurd hcontra (by simp)
      · rintro ⟨i, h2, h3⟩
        have hs : (poll_first_job f fuel 0).1.isSome = true := hiff0.mpr ⟨i, h2, h3⟩
        rw [hp] at hs
        exact absurd hs (by simp)
  · unfold lifecycle_mode
    cases hp : (poll_first_job f fuel 0).1 with
    | some j =>
      constructor
      · intro hcontra
        exact absurd hcontra (by simp)
      · intro hall
        have hs : (poll_first_job f fuel 0).1.isSome = true := by rw [hp]; rfl
        obtain ⟨i, h2, h3⟩ := hiff0.mp hs
        rw [hall i h2] at h3
        exact absurd h3 (by simp)
    | none =>
      constructor
      · intro _ k hk
        by_contra hne
        have hs2 : (f k).isSome = true := by
          cases hfk : f k with
          | none => exact absurd hfk hne
          | some j2 => rfl
        have hs := hiff0.mpr ⟨k, hk, hs2⟩
        rw [hp] at hs
        exact absurd hs (by simp)
      · intro _
        rfl

/-- C4 counterexample: a run whose poll window sees no job enters Probing,
but its trace starts no HTTP responder (and invokes no Job Pipeline run) —
the program contains no liveness HTTP server, contrary to the claim. -/
theorem c4_counterexample :
    lifecycle_mode cex_empty 1 = Mode.Probing ∧
    MainEvent.startHttpResponder ∉ main_trace cex_empty 1 1 ∧
    MainEvent.runJob ∉ main_trace cex_empty 1 1 :=
  ⟨rfl, by decide, by decide⟩

/-- C4 amended: when no fetch during the poll window returns a job, the main
block's trace is exactly the window's fetches followed by the shutdown
request — it never invokes the Job Pipeline and never starts any HTTP
responder. -/
theorem c4_amended (f : ℕ → Option ℕ) (pollFuel drainFuel : ℕ)
    (hf : ∀ k, f k = none) :
    main_trace f pollFuel drainFuel =
      List.replicate pollFuel MainEvent.fetchJob ++ [MainEvent.stopDeployment] ∧
    MainEvent.runJob ∉ main_trace f pollFuel drainFuel ∧
    MainEvent.startHttpResponder ∉ main_trace f pollFuel drainFuel := by
  have hpoll := poll_first_job_all_none f hf pollFuel 0
  have htr : main_trace f pollFuel drainFuel =
      List.replicate pollFuel MainEvent.fetchJob ++ [MainEvent.stopDeployment] := by
    unfold main_trace
    rw [hpoll]
    simp
  refine ⟨htr, ?_, ?_⟩
  · rw [htr]
    simp [List.mem_append, List.mem_replicate]
  · rw [htr]
    simp [List.mem_append, List.mem_replicate]

/-- Witness for C4 amended: the empty-queue run with a two-fetch window. -/
theorem c4_amended_witness :
    main_trace cex_empty 2 3 =
      List.replicate 2 MainEvent.fetchJob ++ [MainEvent.stopDeployment] ∧
    MainEvent.runJob ∉ main_trace cex_empty 2 3 ∧
    MainEvent.startHttpResponder ∉ main_trace cex_empty 2 3 :=
  c4_amended cex_empty 2 3 (fun _ => rfl)

end Televideditor
